import Mathlib

/-!
A shallow embedding of the pypls language server (`main.go`) and proofs of the
specification's claims about it.

The embedding models:
* `getWords`      — the tokenizer (Go `getWords`, main.go:62-82);
* `padStart`      — the sort-key padding helper (Go `padStart`, main.go:84-89);
* the cursor-resolution loop of the completion handler (main.go:196-235);
* the candidate construction of the completion handler (main.go:245-255);
* `handle`        — the method dispatcher (Go `handler.Handle`, main.go:91-272).

Go `map[string]int64` values are modelled as association lists with a
zero-default read (`mapGet`) and an insert-or-update write (`mapPut`); counts
are modelled as `Int` (the reachable values stay far from the int64 bounds, so
no wrap-around is modelled).  Go strings are modelled as `String`, and `range`
over a Go string as iteration over the char (rune) list.  The wire transport
and JSON decoding are external to the embedding: requests arrive with their
payload fields already decoded (`Params`), and the handler's observable actions
(replies, error replies, log notifications, process exit, and the panic that an
out-of-bounds slice index would raise) are recorded as a list of `Effect`s.
-/

set_option maxRecDepth 8000

namespace Pypls

/-- Read of a Go `map[string]int64`: missing keys read as `0` (main.go:70-71). -/
def mapGet (m : List (String × Int)) (k : String) : Int :=
  match m with
  | [] => 0
  | (k', v) :: rest => if k' = k then v else mapGet rest k

/-- Write of a Go `map[string]int64`: update the existing entry or add one. -/
def mapPut (m : List (String × Int)) (k : String) (v : Int) : List (String × Int) :=
  match m with
  | [] => [(k, v)]
  | (k', v') :: rest => if k' = k then (k, v) :: rest else (k', v') :: mapPut rest k v

/-- The hardcoded keyword list `defs` (main.go:277). -/
def defs : List String :=
  ["for", "range", "import", "int", "if", "elif", "else", "in", "open", "sort",
   "sorted", "def", "print", "continue", "break", "return", "not", "del", "eval",
   "True", "False", "str", "while", "and", "as", "is", "or", "try", "except",
   "finally", "raise", "assert", "with", "lambda", "yield", "async", "await",
   "class", "from", "global", "nonlocal", "pass", "None", "abs", "all", "any",
   "ascii", "bin", "bool", "breakpoint", "bytearray", "bytes", "callable", "chr",
   "classmethod", "compile", "complex", "delattr", "dict", "dir", "divmod",
   "enumerate", "exec", "filter", "float", "format", "frozenset", "getattr",
   "globals", "hasattr", "hash", "help", "hex", "id", "input", "isinstance",
   "issubclass", "iter", "len", "list", "locals", "map", "max", "memoryview",
   "min", "next", "object", "oct", "pow", "property", "repr", "reversed",
   "round", "set", "setattr", "slice", "staticmethod", "sum", "super", "tuple",
   "type", "vars", "zip", "__import__"]

/-- `defaultCompletions`: every keyword is mapped to weight 11 (main.go:279-281). -/
def defaultCompletions : List (String × Int) := defs.map (fun d => (d, 11))

/-- The identifier-character test `c == '_' || unicode.IsLetter(c) ||
unicode.IsDigit(c)` (main.go:67, main.go:217).  `Char.isAlpha`/`Char.isDigit`
agree with Go's classifier on the ASCII range; every text in the claims is
ASCII, and no claim below depends on the classification outside ASCII. -/
def isIdentChar (c : Char) : Bool :=
  c = '_' || c.isAlpha || c.isDigit

/-- The scanning loop of Go `getWords` (main.go:66-75): accumulate identifier
characters into `currentword`; on a delimiter, count the buffer unless it is
empty or reads as nonzero from `defaultCompletions` (i.e. is a keyword), then
reset the buffer.  Returns the word map together with the final buffer. -/
def getWordsLoop : List Char → List (String × Int) → String → List (String × Int) × String
  | [], words, currentword => (words, currentword)
  | c :: rest, words, currentword =>
    if isIdentChar c then
      getWordsLoop rest words (currentword.push c)
    else
      let words' :=
        if currentword ≠ "" ∧ mapGet defaultCompletions currentword = 0 then
          mapPut words currentword (mapGet words currentword + 1)
        else words
      getWordsLoop rest words' ""

/-- Go `getWords` (main.go:62-82).  Note that the end-of-input flush
(main.go:77-79) counts a non-empty trailing buffer without consulting
`defaultCompletions`, unlike the in-scan flush (main.go:70). -/
def getWords (text : String) : List (String × Int) :=
  let (words, currentword) := getWordsLoop text.data [] ""
  if currentword ≠ "" then mapPut words currentword (mapGet words currentword + 1)
  else words

/-- Decimal digit list of a natural number, fuel-driven so that it reduces in
the kernel.  `formatNat` below always supplies enough fuel, and
`formatNat_eq` proves the natural recurrence. -/
def formatNatAux : Nat → Nat → List Char
  | 0, _ => []
  | fuel + 1, n =>
    if n < 10 then [Char.ofNat (48 + n)]
    else formatNatAux fuel (n / 10) ++ [Char.ofNat (48 + n % 10)]

/-- Decimal digit list of a natural number (no leading zeros; `0` gives "0"). -/
def formatNat (n : Nat) : List Char := formatNatAux (n + 1) n

/-- Go `strconv.FormatInt(v, 10)` (main.go:250, main.go:254): minus sign for
negative values followed by the decimal digits of the magnitude. -/
def formatInt (i : Int) : String :=
  if i < 0 then "-" ++ String.mk (formatNat (-i).toNat) else String.mk (formatNat i.toNat)

/-- One-step-bounded version of the Go `padStart` loop (main.go:84-89),
fuel-driven so that it reduces in the kernel.  Each iteration prepends `pad`. -/
def padStartAux : Nat → String → String → Nat → String
  | 0, s, _, _ => s
  | fuel + 1, s, pad, len => if s.length < len then padStartAux fuel (pad ++ s) pad len else s

/-- Go `padStart` (main.go:84-89).  The server only calls it with `pad = "0"`,
for which one iteration adds exactly one character, so `len` rounds of fuel
always suffice (the Go loop would diverge on an empty `pad`; the model instead
stops — no call site is affected).  Go's `len` counts bytes; on the ASCII
strings produced by `formatInt` it coincides with the char count used here. -/
def padStart (s pad : String) (len : Nat) : String := padStartAux len s pad len

/-- The sort key attached to a candidate with occurrence count `v`:
`padStart(strconv.FormatInt(1000000 - v, 10), "0", 6)` (main.go:250). -/
def sortKey (v : Int) : String := padStart (formatInt (1000000 - v)) "0" 6

/-- Go `CompletionItem` (main.go:15-21). -/
structure CompletionItem where
  label : String
  kind : Int
  insertText : String
  insertTextFmt : Int
  sortText : String
deriving DecidableEq

/-- Go `OpenFile` (main.go:23-27). -/
structure OpenFile where
  uri : String
  content : String
  words : List (String × Int)
deriving DecidableEq

/-- The document store `files` (main.go:29), a Go map modelled as a lookup
function. -/
def Files : Type := String → Option OpenFile

/-- The store at process start (main.go:283). -/
def emptyFiles : Files := fun _ => none

/-- Go map assignment `files[uri] = f` (main.go:137, main.go:159). -/
def put (fs : Files) (uri : String) (f : OpenFile) : Files :=
  fun u => if u = uri then some f else fs u

/-- The payload fields the handler decodes from a request: the URI
(main.go:46-60), the didOpen text (main.go:147-149), the didChange content
changes (main.go:125-127), and the completion position (main.go:182-187).
JSON decoding itself is outside the embedding; a request arrives with these
fields already decoded. -/
structure Params where
  uri : String
  text : String
  contentChanges : List String
  line : Int
  character : Int

/-- An incoming request or notification: its method name and decoded params. -/
structure Request where
  method : String
  params : Params

/-- Payloads of `conn.Reply` (main.go:103, main.go:109, main.go:264). -/
inductive Reply where
  | initResult (triggerCharacters : List String)
  | nullResult
  | completionList (isIncomplete : Bool) (items : List CompletionItem)
deriving DecidableEq

/-- The observable actions of one `Handle` call. -/
inductive Effect where
  | reply (r : Reply)
  | replyError (code : Int) (message : String)
  | notify (method : String) (level : Int) (message : String)
  | exitProcess
  | crash
deriving DecidableEq

/-- Go `log` (main.go:37-42): a `window/logMessage` notification at level 4. -/
def logEffect (message : String) : Effect := Effect.notify "window/logMessage" 4 message

/-- `jsonrpc2.CodeMethodNotFound` (main.go:268). -/
def codeMethodNotFound : Int := -32601

/-- The loop variables of the cursor-resolution scan (main.go:196-201). -/
structure ResolveState where
  curline : Int
  line_pos : Int
  curword : String
  tocomplete : String
  leadup : List String
deriving DecidableEq

/-- The cursor-resolution scan over the file content (main.go:203-231). -/
def resolveLoop (line character : Int) : List Char → ResolveState → ResolveState
  | [], st => st
  | c :: rest, st =>
    let st := { st with line_pos := st.line_pos + 1 }
    if c = '\n' then
      let st :=
        if st.curline = line ∧ st.line_pos = character then { st with tocomplete := st.curword }
        else st
      let st := { st with curline := st.curline + 1, line_pos := 0 }
      if st.curline > line then st else resolveLoop line character rest st
    else if st.curline = line then
      let st :=
        if isIdentChar c then { st with curword := st.curword.push c }
        else if c = '.' then { st with leadup := st.leadup ++ [st.curword], curword := "" }
        else { st with leadup := [], curword := "" }
      let st := if st.line_pos = character then { st with tocomplete := st.curword } else st
      resolveLoop line character rest st
    else
      resolveLoop line character rest st

/-- Cursor resolution: the scan (main.go:203-231) followed by the end-of-scan
capture `line_pos+1 == character && curline == line` (main.go:233-235). -/
def resolve (content : String) (line character : Int) : ResolveState :=
  let st := resolveLoop line character content.data
    { curline := 0, line_pos := 0, curword := "", tocomplete := "", leadup := [] }
  if st.line_pos + 1 = character ∧ st.curline = line then { st with tocomplete := st.curword }
  else st

/-- The candidate-construction loop (main.go:248-251 and main.go:252-255): one
item per map entry whose key differs from the word being completed, carrying
kind 3, plain-text insert format 1, and the frequency-derived sort key.  Go
iterates the map in unspecified order and appends; the model emits the items in
association-list order (no claim below depends on the emission order). -/
def mkItems : List (String × Int) → String → List CompletionItem
  | [], _ => []
  | (key, value) :: rest, tocomplete =>
    if key = tocomplete then mkItems rest tocomplete
    else { label := key, kind := 3, insertText := key, insertTextFmt := 1,
           sortText := sortKey value } :: mkItems rest tocomplete

/-- Go `handler.Handle` (main.go:91-272), as a function from the store and the
request to the new store and the emitted effects.  The per-branch JSON decode
failures (which the claims do not touch) are outside the embedding; the
out-of-bounds index `params.ContentChanges[0]` on an empty slice surfaces as
`Effect.crash` (a Go runtime panic), with the store untouched. -/
def handle (fs : Files) (req : Request) : Files × List Effect :=
  if req.method = "initialize" then
    (fs, [Effect.reply (Reply.initResult [".", ":"])])
  else if req.method = "initialized" then
    (fs, [logEffect "Language server initialized successfully"])
  else if req.method = "shutdown" then
    (fs, [Effect.reply Reply.nullResult])
  else if req.method = "exit" then
    (fs, [Effect.exitProcess])
  else if req.method = "workspace/didChangeConfiguration" then
    (fs, [logEffect "Ack"])
  else if req.method = "textDocument/didChange" then
    match req.params.contentChanges with
    | [] => (fs, [Effect.crash])
    | t :: _ => (put fs req.params.uri { uri := req.params.uri, content := t, words := getWords t }, [])
  else if req.method = "textDocument/didOpen" then
    (put fs req.params.uri
      { uri := req.params.uri, content := req.params.text, words := getWords req.params.text }, [])
  else if req.method = "textDocument/didSave" then
    (fs, [])
  else if req.method = "textDocument/hover" then
    (fs, [])
  else if req.method = "textDocument/completion" then
    match fs req.params.uri with
    | none => (fs, [logEffect "FILE NOT OPEN"])
    | some file =>
      let st := resolve file.content req.params.line req.params.character
      let leadups := st.leadup.foldl (fun acc li => acc ++ li ++ ".") ""
      let items := mkItems file.words st.tocomplete ++ mkItems defaultCompletions st.tocomplete
      (fs, [logEffect (leadups ++ st.tocomplete),
            Effect.reply (Reply.completionList false items)])
  else
    (fs, [Effect.replyError codeMethodNotFound ("method not found < " ++ req.method)])

/-- The completion items carried by the reply effects of a handler call. -/
def replyItems : List Effect → List CompletionItem
  | [] => []
  | Effect.reply (Reply.completionList _ items) :: rest => items ++ replyItems rest
  | _ :: rest => replyItems rest

/-- Substring containment on strings, at the char-list level. -/
def containsSub (needle hay : String) : Prop :=
  ∃ pre post : List Char, hay.data = pre ++ needle.data ++ post

/-- The ten method names the dispatcher recognizes (main.go:92-265). -/
def knownMethods : List String :=
  ["initialize", "initialized", "shutdown", "exit", "workspace/didChangeConfiguration",
   "textDocument/didChange", "textDocument/didOpen", "textDocument/didSave",
   "textDocument/hover", "textDocument/completion"]

/-- The stores reachable by the server: the empty start-up store (main.go:283)
and everything a handled request can produce from a reachable store. -/
inductive Reachable : Files → Prop
  | init : Reachable emptyFiles
  | step (fs : Files) (req : Request) : Reachable fs → Reachable (handle fs req).1

/-- Whether an effect answers the request (a result or an error reply). -/
def isReply : Effect → Bool
  | Effect.reply _ => true
  | Effect.replyError _ _ => true
  | _ => false

/-- A params record whose fields are all inert defaults, for requests whose
handler reads none of them. -/
def noParams : Params :=
  { uri := "", text := "", contentChanges := [], line := 0, character := 0 }

/-- The didOpen notification of the end-to-end scenario. -/
def scenarioOpenReq : Request :=
  { method := "textDocument/didOpen",
    params := { uri := "file:///a.py", text := "cat cat dog", contentChanges := [],
                line := 0, character := 0 } }

/-- The completion request of the end-to-end scenario, at end-of-text of
`"cat cat dog"` (line 0, character 11). -/
def scenarioComplReq : Request :=
  { method := "textDocument/completion",
    params := { uri := "file:///a.py", text := "", contentChanges := [],
                line := 0, character := 11 } }

/-- The candidate list the server replies with in the end-to-end scenario. -/
def scenarioItems : List CompletionItem :=
  replyItems (handle (handle emptyFiles scenarioOpenReq).1 scenarioComplReq).2

/-!  Claim theorems. -/

/-- C2 (code evidence): the tokenizer's end-of-input flush does not apply the
keyword-exclusion rule.  On the input `"for"` — a keyword-table member with no
trailing delimiter — `getWords` returns a mapping whose only key is the keyword
`"for"`, even though `"for"` reads as 11 (a keyword) from `defaultCompletions`;
so `Tokenize` does not exclude every keyword-table member, refuting the claim's
universal exclusion property on this input. -/
theorem c2_trailing_keyword_counted :
    getWords "for" = [("for", 1)] ∧ mapGet defaultCompletions "for" = 11 := by
  decide

/-- Helper for C3: every item built by the candidate loop has a label that
differs from the word being completed (the `continue` at main.go:249/253). -/
theorem mkItems_labels_ne (m : List (String × Int)) (tocomplete : String) :
    (mkItems m tocomplete).all (fun it => it.label != tocomplete) = true := by
  induction m with
  | nil => rfl
  | cons kv rest ih =>
    obtain ⟨k, v⟩ := kv
    by_cases h : k = tocomplete
    · simpa [mkItems, h] using ih
    · simpa [mkItems, h] using ih

/-- C3: whenever a completion request produces a reply, no item in the returned
candidate list has a label equal to the resolved in-progress word: both the
document-frequency pass and the keyword-table pass skip the exact match. -/
theorem c3_no_self_completion (fs : Files) (p : Params) (file : OpenFile)
    (hf : fs p.uri = some file) :
    (replyItems (handle fs { method := "textDocument/completion", params := p }).2).all
      (fun it => it.label != (resolve file.content p.line p.character).tocomplete) = true := by
  simp only [handle, hf]
  norm_num [replyItems, List.all_append, mkItems_labels_ne]

/-- Witness for C3 at a concrete store and request. -/
theorem c3_no_self_completion_witness :
    (replyItems (handle
        (put emptyFiles "file:///w.py" { uri := "file:///w.py", content := "", words := [] })
        { method := "textDocument/completion",
          params := { uri := "file:///w.py", text := "", contentChanges := [],
                      line := 0, character := 0 } }).2).all
      (fun it => it.label != (resolve "" 0 0).tocomplete) = true :=
  c3_no_self_completion _ _ { uri := "file:///w.py", content := "", words := [] } rfl

/-- C5 (counterexample): in the end-to-end scenario — didOpen with
`"cat cat dog"`, completion at end-of-text (line 0, character 11) — the
resolved in-progress word is `"dog"`, not `""`, and consequently no candidate
labelled `"dog"` appears in the reply, refuting both the `partial = ""` part of
the claim and the presence of a `dog` candidate. -/
theorem c5_end_to_end_counterexample :
    (resolve "cat cat dog" 0 11).tocomplete = "dog" ∧
    scenarioItems.all (fun it => it.label != "dog") = true := by
  decide

/-- C5 (amended): in the end-to-end scenario the resolved in-progress word is
`"dog"`; the reply contains a candidate for `cat` (count 2, sort key 999998)
and the keyword candidates (weight 11, sort key 999989); every candidate other
than `cat` is a keyword candidate with sort key 999989, which sorts strictly
before `cat`'s 999998; and `dog`, being the in-progress word, is excluded. -/
theorem c5_end_to_end_amended :
    (resolve "cat cat dog" 0 11).tocomplete = "dog" ∧
    ({ label := "cat", kind := 3, insertText := "cat", insertTextFmt := 1,
       sortText := "999998" } : CompletionItem) ∈ scenarioItems ∧
    ({ label := "for", kind := 3, insertText := "for", insertTextFmt := 1,
       sortText := "999989" } : CompletionItem) ∈ scenarioItems ∧
    scenarioItems.all (fun it => it.label == "cat" || it.sortText == "999989") = true ∧
    scenarioItems.all (fun it => it.label != "dog") = true ∧
    ("999989" : String) < "999998" := by
  refine ⟨by decide, by decide, by decide, by decide, by decide, ?_⟩
  rw [String.lt_iff_toList_lt]
  decide

/-- C6: the cursor resolver reproduces the spec's two worked examples:
`"foo.bar.baz"` at line 0, character 11 gives leadUp `["foo", "bar"]` and
in-progress word `"baz"`; `"x = 1\nfoo.b"` at line 1, character 5 gives
in-progress word `"b"` and leadUp `["foo"]`. -/
theorem c6_resolver_worked_examples :
    (resolve "foo.bar.baz" 0 11).leadup = ["foo", "bar"] ∧
    (resolve "foo.bar.baz" 0 11).tocomplete = "baz" ∧
    (resolve "x = 1\nfoo.b" 1 5).tocomplete = "b" ∧
    (resolve "x = 1\nfoo.b" 1 5).leadup = ["foo"] := by
  decide

/-- C10: the resolver pushes the current word buffer onto leadUp on every `.`
on the target line even when the buffer is empty: `"a..b"` with the cursor
after `b` yields leadUp `["a", ""]`, and a target line beginning with `.`
yields a leading empty segment. -/
theorem c10_leadup_empty_segments :
    (resolve "a..b" 0 4).leadup = ["a", ""] ∧
    (resolve ".x" 0 2).leadup = [""] := by
  decide

/-- C7: a completion request for a URI absent from the store leaves the store
unchanged and emits exactly one effect — the `"FILE NOT OPEN"` log
notification; in particular no reply and no error reply is sent. -/
theorem c7_completion_not_open (fs : Files) (p : Params) (h : fs p.uri = none) :
    (handle fs { method := "textDocument/completion", params := p }).1 = fs ∧
    (handle fs { method := "textDocument/completion", params := p }).2
      = [Effect.notify "window/logMessage" 4 "FILE NOT OPEN"] ∧
    ((handle fs { method := "textDocument/completion", params := p }).2.all
      (fun e => !isReply e)) = true := by
  simp only [handle, h]
  refine ⟨rfl, rfl, rfl⟩

/-- Witness for C7: a completion request against the empty store. -/
theorem c7_completion_not_open_witness :
    (handle emptyFiles { method := "textDocument/completion", params := noParams }).1
      = emptyFiles ∧
    (handle emptyFiles { method := "textDocument/completion", params := noParams }).2
      = [Effect.notify "window/logMessage" 4 "FILE NOT OPEN"] ∧
    ((handle emptyFiles { method := "textDocument/completion", params := noParams }).2.all
      (fun e => !isReply e)) = true :=
  c7_completion_not_open emptyFiles noParams rfl

/-- C8: for every method name outside the recognized set the dispatcher leaves
the store unchanged and replies with a MethodNotFound error whose message is
the offending method name appended to `"method not found < "`, which therefore
contains the method name as a substring. -/
theorem c8_unknown_method (fs : Files) (p : Params) (m : String)
    (h : m ∉ knownMethods) :
    handle fs { method := m, params := p }
      = (fs, [Effect.replyError codeMethodNotFound ("method not found < " ++ m)]) ∧
    containsSub m ("method not found < " ++ m) := by
  simp only [knownMethods, List.mem_cons, not_or, List.not_mem_nil, and_true] at h
  obtain ⟨h1, h2, h3, h4, h5, h6, h7, h8, h9, h10⟩ := h
  constructor
  · simp [handle, h1, h2, h3, h4, h5, h6, h7, h8, h9, h10]
  · exact ⟨"method not found < ".data, [], by simp [String.data_append]⟩

/-- Witness for C8 at the spec's example method `"foo/bar"`. -/
theorem c8_unknown_method_witness :
    handle emptyFiles { method := "foo/bar", params := noParams }
      = (emptyFiles,
         [Effect.replyError codeMethodNotFound ("method not found < " ++ "foo/bar")]) ∧
    containsSub "foo/bar" ("method not found < " ++ "foo/bar") :=
  c8_unknown_method emptyFiles noParams "foo/bar" (by decide)

/-- C9: the didChange handler stores the first entry of the contentChanges
array whenever that array is non-empty (the indexing at main.go:137 is then in
bounds and the stored record carries the first entry's text and its word map),
and on an empty array the very same unguarded indexing is out of bounds — the
handler panics and the store is untouched. -/
theorem c9_didchange_first_entry (fs : Files) (p : Params) (t : String)
    (rest : List String) (p0 : Params) (h : p.contentChanges = t :: rest)
    (h0 : p0.contentChanges = []) :
    handle fs { method := "textDocument/didChange", params := p }
      = (put fs p.uri { uri := p.uri, content := t, words := getWords t }, []) ∧
    handle fs { method := "textDocument/didChange", params := p0 }
      = (fs, [Effect.crash]) := by
  constructor
  · simp [handle, h]
  · simp [handle, h0]

/-- Witness for C9: a one-entry change list and an empty change list. -/
theorem c9_didchange_first_entry_witness :
    handle emptyFiles
        { method := "textDocument/didChange",
          params := { uri := "file:///c.py", text := "", contentChanges := ["x y"],
                      line := 0, character := 0 } }
      = (put emptyFiles "file:///c.py"
          { uri := "file:///c.py", content := "x y", words := getWords "x y" }, []) ∧
    handle emptyFiles { method := "textDocument/didChange", params := noParams }
      = (emptyFiles, [Effect.crash]) :=
  c9_didchange_first_entry emptyFiles
    { uri := "file:///c.py", text := "", contentChanges := ["x y"], line := 0, character := 0 }
    "x y" [] noParams rfl rfl

/-- Helper for C1: one handled request either leaves the store unchanged or
overwrites a single URI with a record whose word map is recomputed from the
stored text by `getWords`. -/
theorem handle_fst_cases (fs : Files) (req : Request) :
    (handle fs req).1 = fs ∨
    ∃ u t, (handle fs req).1 = put fs u { uri := u, content := t, words := getWords t } := by
  by_cases h1 : req.method = "initialize"
  · exact Or.inl (by simp [handle, h1])
  by_cases h2 : req.method = "initialized"
  · exact Or.inl (by simp [handle, h2])
  by_cases h3 : req.method = "shutdown"
  · exact Or.inl (by simp [handle, h3])
  by_cases h4 : req.method = "exit"
  · exact Or.inl (by simp [handle, h4])
  by_cases h5 : req.method = "workspace/didChangeConfiguration"
  · exact Or.inl (by simp [handle, h5])
  by_cases h6 : req.method = "textDocument/didChange"
  · cases hcc : req.params.contentChanges with
    | nil => exact Or.inl (by simp [handle, h6, hcc])
    | cons t rest => exact Or.inr ⟨req.params.uri, t, by simp [handle, h6, hcc]⟩
  by_cases h7 : req.method = "textDocument/didOpen"
  · exact Or.inr ⟨req.params.uri, req.params.text, by simp [handle, h7]⟩
  by_cases h8 : req.method = "textDocument/didSave"
  · exact Or.inl (by simp [handle, h8])
  by_cases h9 : req.method = "textDocument/hover"
  · exact Or.inl (by simp [handle, h9])
  by_cases h10 : req.method = "textDocument/completion"
  · cases hget : fs req.params.uri with
    | none => exact Or.inl (by simp [handle, h10, hget])
    | some file => exact Or.inl (by simp [handle, h10, hget])
  · exact Or.inl (by simp [handle, h1, h2, h3, h4, h5, h6, h7, h8, h9, h10])

/-- Helper for C1: in every reachable store, each record's word map is exactly
the tokenization of its text. -/
theorem reachable_words_eq_getWords (fs : Files) (hfs : Reachable fs) :
    ∀ u f, fs u = some f → f.words = getWords f.content := by
  induction hfs with
  | init => intro u f hf; exact absurd hf (by simp [emptyFiles])
  | step fs' req _ ih =>
    intro u f hf
    rcases handle_fst_cases fs' req with heq | ⟨u', t', heq⟩
    · exact ih u f (heq ▸ hf)
    · rw [heq] at hf
      unfold put at hf
      by_cases hu : u = u'
      · rw [if_pos hu] at hf
        cases hf
        rfl
      · exact ih u f (by rwa [if_neg hu] at hf)

/-- C1: after a didOpen or didChange stores text `t` under a URI, the record
found at that URI carries exactly `getWords t` as its word map; and in every
reachable store, every record's word map equals the tokenization of its text —
no handler ever lets the two diverge. -/
theorem c1_store_invariant (fs : Files) (hfs : Reachable fs) (p p2 : Params)
    (t2 : String) (rest : List String) (h2 : p2.contentChanges = t2 :: rest)
    (u : String) (f : OpenFile) (hf : fs u = some f) :
    (handle fs { method := "textDocument/didOpen", params := p }).1 p.uri
      = some { uri := p.uri, content := p.text, words := getWords p.text } ∧
    (handle fs { method := "textDocument/didChange", params := p2 }).1 p2.uri
      = some { uri := p2.uri, content := t2, words := getWords t2 } ∧
    f.words = getWords f.content := by
  refine ⟨?_, ?_, reachable_words_eq_getWords fs hfs u f hf⟩
  · simp [handle, put]
  · simp [handle, h2, put]

/-- Witness for C1: the store reached by one didOpen of `"cat cat dog"`. -/
theorem c1_store_invariant_witness :
    (handle (handle emptyFiles scenarioOpenReq).1
        { method := "textDocument/didOpen", params := scenarioOpenReq.params }).1 "file:///a.py"
      = some { uri := "file:///a.py", content := "cat cat dog",
               words := getWords "cat cat dog" } ∧
    (handle (handle emptyFiles scenarioOpenReq).1
        { method := "textDocument/didChange",
          params := { uri := "file:///a.py", text := "", contentChanges := ["dog"],
                      line := 0, character := 0 } }).1 "file:///a.py"
      = some { uri := "file:///a.py", content := "dog", words := getWords "dog" } ∧
    ({ uri := "file:///a.py", content := "cat cat dog",
       words := [("cat", 2), ("dog", 1)] } : OpenFile).words
      = getWords ({ uri := "file:///a.py", content := "cat cat dog",
                    words := [("cat", 2), ("dog", 1)] } : OpenFile).content :=
  c1_store_invariant (handle emptyFiles scenarioOpenReq).1
    (Reachable.step emptyFiles scenarioOpenReq Reachable.init)
    scenarioOpenReq.params
    { uri := "file:///a.py", text := "", contentChanges := ["dog"], line := 0, character := 0 }
    "dog" [] rfl "file:///a.py"
    { uri := "file:///a.py", content := "cat cat dog", words := [("cat", 2), ("dog", 1)] }
    (by decide)

/-!  Decimal-digit machinery for the sort-key monotonicity claim (C4). -/

/-- The numeric value of a digit character. -/
def digitVal (c : Char) : Nat := c.toNat - 48

/-- A character is a decimal digit. -/
def isDigitCh (c : Char) : Prop := 48 ≤ c.toNat ∧ c.toNat ≤ 57

/-- The numeric value of a digit string read in base 10. -/
def digitsVal (ds : List Char) : Nat := ds.foldl (fun a c => 10 * a + digitVal c) 0

theorem digitsVal_foldl_shift (ds : List Char) (a : Nat) :
    ds.foldl (fun a c => 10 * a + digitVal c) a = a * 10 ^ ds.length + digitsVal ds := by
  induction ds generalizing a with
  | nil => simp [digitsVal]
  | cons c ds ih =>
    simp only [List.foldl_cons, List.length_cons, digitsVal] at *
    rw [ih (10 * a + digitVal c), ih (10 * 0 + digitVal c)]
    ring

theorem digitsVal_cons (c : Char) (ds : List Char) :
    digitsVal (c :: ds) = digitVal c * 10 ^ ds.length + digitsVal ds := by
  have h := digitsVal_foldl_shift ds (digitVal c)
  simpa [digitsVal] using h

theorem digitsVal_append_singleton (ds : List Char) (c : Char) :
    digitsVal (ds ++ [c]) = 10 * digitsVal ds + digitVal c := by
  simp [digitsVal, List.foldl_append]

theorem digitsVal_lt_pow (ds : List Char) (h : ∀ c ∈ ds, isDigitCh c) :
    digitsVal ds < 10 ^ ds.length := by
  induction ds with
  | nil => simp [digitsVal]
  | cons c ds ih =>
    have hc : digitVal c ≤ 9 := by
      have := (h c (List.mem_cons_self c ds)).2
      unfold digitVal
      omega
    have hds := ih (fun x hx => h x (List.mem_cons_of_mem c hx))
    rw [digitsVal_cons, List.length_cons, pow_succ]
    nlinarith [pow_pos (show 0 < 10 by norm_num) ds.length]

theorem char_eq_of_toNat_eq {a b : Char} (h : a.toNat = b.toNat) : a = b :=
  Char.ext (UInt32.ext h)

/-- Equal-length digit strings compare lexicographically as their values. -/
theorem lex_lt_of_digitsVal_lt :
    ∀ ds1 ds2 : List Char, ds1.length = ds2.length →
      (∀ c ∈ ds1, isDigitCh c) → (∀ c ∈ ds2, isDigitCh c) →
      digitsVal ds1 < digitsVal ds2 → List.Lex (fun x1 x2 : Char => x1 < x2) ds1 ds2
  | [], [], _, _, _, hv => absurd hv (by simp [digitsVal])
  | [], _ :: _, hlen, _, _, _ => absurd hlen (by simp)
  | _ :: _, [], hlen, _, _, _ => absurd hlen (by simp)
  | a :: as, b :: bs, hlen, hd1, hd2, hv => by
    have hlen' : as.length = bs.length := by simpa using hlen
    have ha : isDigitCh a := hd1 a (List.mem_cons_self a as)
    have hb : isDigitCh b := hd2 b (List.mem_cons_self b bs)
    have has : ∀ c ∈ as, isDigitCh c := fun c hc => hd1 c (List.mem_cons_of_mem a hc)
    have hbs : ∀ c ∈ bs, isDigitCh c := fun c hc => hd2 c (List.mem_cons_of_mem b hc)
    rw [digitsVal_cons, digitsVal_cons, hlen'] at hv
    rcases Nat.lt_trichotomy (digitVal a) (digitVal b) with hab | hab | hab
    · exact List.Lex.rel (show a.toNat < b.toNat by unfold digitVal isDigitCh at *; omega)
    · have hne : a = b := char_eq_of_toNat_eq (by unfold digitVal isDigitCh at *; omega)
      subst hne
      have hv' : digitsVal as < digitsVal bs := by omega
      exact List.Lex.cons (lex_lt_of_digitsVal_lt as bs hlen' has hbs hv')
    · exfalso
      have hbound : digitsVal bs < 10 ^ bs.length := digitsVal_lt_pow bs hbs
      have hstep : digitVal b * 10 ^ bs.length + 10 ^ bs.length ≤ digitVal a * 10 ^ bs.length := by
        have h1 : digitVal b + 1 ≤ digitVal a := hab
        calc digitVal b * 10 ^ bs.length + 10 ^ bs.length
            = (digitVal b + 1) * 10 ^ bs.length := by ring
          _ ≤ digitVal a * 10 ^ bs.length := Nat.mul_le_mul_right _ h1
      omega

theorem formatNatAux_congr :
    ∀ f1 f2 n : Nat, n < f1 → n < f2 → formatNatAux f1 n = formatNatAux f2 n
  | 0, _, n, h1, _ => absurd h1 (Nat.not_lt_zero n)
  | _ + 1, 0, n, _, h2 => absurd h2 (Nat.not_lt_zero n)
  | f1 + 1, f2 + 1, n, h1, h2 => by
    simp only [formatNatAux]
    split
    · rfl
    · next h =>
      have hlt : n / 10 < n := Nat.div_lt_self (by omega) (by norm_num)
      rw [formatNatAux_congr f1 (n / 10 + 1) (n / 10) (by omega) (by omega),
          formatNatAux_congr f2 (n / 10 + 1) (n / 10) (by omega) (by omega)]

/-- The natural recurrence of the fuelled decimal formatter. -/
theorem formatNat_eq (n : Nat) :
    formatNat n =
      if n < 10 then [Char.ofNat (48 + n)]
      else formatNat (n / 10) ++ [Char.ofNat (48 + n % 10)] := by
  conv_lhs => rw [formatNat]
  rw [show formatNatAux (n + 1) n
        = (if n < 10 then [Char.ofNat (48 + n)]
           else formatNatAux n (n / 10) ++ [Char.ofNat (48 + n % 10)]) from rfl]
  split
  · rfl
  · next h =>
    have hlt : n / 10 < n := Nat.div_lt_self (by omega) (by norm_num)
    rw [formatNatAux_congr n (n / 10 + 1) (n / 10) (by omega) (by omega)]
    rfl

theorem digit_char_toNat (d : Nat) (h : d < 10) : (Char.ofNat (48 + d)).toNat = 48 + d := by
  interval_cases d <;> decide

theorem formatNat_spec (n : Nat) :
    (∀ c ∈ formatNat n, isDigitCh c) ∧ digitsVal (formatNat n) = n := by
  induction n using Nat.strong_induction_on with
  | _ n ih =>
    rw [formatNat_eq]
    by_cases h : n < 10
    · rw [if_pos h]
      have ht := digit_char_toNat n h
      refine ⟨?_, ?_⟩
      · intro c hc
        rw [List.mem_singleton] at hc
        subst hc
        unfold isDigitCh
        omega
      · simp [digitsVal, digitVal, ht]
    · rw [if_neg h]
      have hlt : n / 10 < n := Nat.div_lt_self (by omega) (by norm_num)
      obtain ⟨ihd, ihv⟩ := ih (n / 10) hlt
      have hm : n % 10 < 10 := Nat.mod_lt n (by norm_num)
      have ht := digit_char_toNat (n % 10) hm
      refine ⟨?_, ?_⟩
      · intro c hc
        rcases List.mem_append.mp hc with hc | hc
        · exact ihd c hc
        · rw [List.mem_singleton] at hc
          subst hc
          unfold isDigitCh
          omega
      · rw [digitsVal_append_singleton, ihv]
        unfold digitVal
        rw [ht]
        omega

theorem formatNat_length_le :
    ∀ k n : Nat, n < 10 ^ k → 1 ≤ k → (formatNat n).length ≤ k := by
  intro k
  induction k with
  | zero => omega
  | succ k ih =>
    intro n hn _
    rw [formatNat_eq]
    by_cases h : n < 10
    · simp [h]
    · rw [if_neg h]
      have hk : 1 ≤ k := by
        by_contra hk0
        have : k = 0 := by omega
        subst this
        simp at hn
        omega
      have hdiv : n / 10 < 10 ^ k := by
        rw [Nat.div_lt_iff_lt_mul (by norm_num)]
        calc n < 10 ^ (k + 1) := hn
          _ = 10 ^ k * 10 := by ring
      have := ih (n / 10) hdiv hk
      simp only [List.length_append, List.length_cons, List.length_nil]
      omega

theorem padStartAux_zero_data :
    ∀ (fuel : Nat) (s : String) (len : Nat), len ≤ s.length + fuel →
      (padStartAux fuel s "0" len).data = List.replicate (len - s.length) '0' ++ s.data
  | 0, s, len, h => by
    simp only [padStartAux]
    have : len - s.length = 0 := by omega
    rw [this]
    simp
  | fuel + 1, s, len, h => by
    simp only [padStartAux]
    split
    · next hlt =>
      have h0 : ("0" : String).length = 1 := rfl
      have hs : ("0" ++ s).length = s.length + 1 := by
        rw [String.length_append, h0]
        omega
      rw [padStartAux_zero_data fuel ("0" ++ s) len (by omega)]
      have hdata : ("0" ++ s).data = '0' :: s.data := by
        rw [String.data_append]
        rfl
      rw [hs, hdata]
      have hm : len - s.length = (len - (s.length + 1)) + 1 := by omega
      rw [hm, List.replicate_succ']
      simp
    · next hge =>
      have : len - s.length = 0 := by omega
      rw [this]
      simp

/-- The zero-padding loop prepends exactly the missing zeros. -/
theorem padStart_zero_data (s : String) (len : Nat) :
    (padStart s "0" len).data = List.replicate (len - s.length) '0' ++ s.data :=
  padStartAux_zero_data len s len (by omega)

theorem digitsVal_replicate_zero (m : Nat) (ds : List Char) :
    digitsVal (List.replicate m '0' ++ ds) = digitsVal ds := by
  induction m with
  | zero => simp
  | succ m ih =>
    rw [List.replicate_succ, List.cons_append, digitsVal_cons]
    simp only [ih]
    have : digitVal '0' = 0 := rfl
    rw [this]
    ring

/-- The char list of a sort key for a count in `[1, 999999]`: six characters,
all digits, reading as `1000000 - c` in decimal. -/
theorem sortKey_data_spec (c : Int) (h1 : 1 ≤ c) (h2 : c ≤ 999999) :
    (sortKey c).data.length = 6 ∧ (∀ x ∈ (sortKey c).data, isDigitCh x) ∧
      digitsVal (sortKey c).data = (1000000 - c).toNat := by
  have hpos : ¬ (1000000 - c < 0) := by omega
  have hn : (1000000 - c).toNat < 10 ^ 6 := by omega
  have hn1 : 1 ≤ (1000000 - c).toNat := by omega
  set n := (1000000 - c).toNat with hndef
  have hfmt : formatInt (1000000 - c) = String.mk (formatNat n) := by
    unfold formatInt
    rw [if_neg hpos]
  have hlen : (formatNat n).length ≤ 6 := formatNat_length_le 6 n hn (by norm_num)
  obtain ⟨hdig, hval⟩ := formatNat_spec n
  have hsdata : (sortKey c).data = List.replicate (6 - (formatNat n).length) '0' ++ formatNat n := by
    unfold sortKey
    rw [hfmt, padStart_zero_data]
    rfl
  refine ⟨?_, ?_, ?_⟩
  · rw [hsdata]
    simp only [List.length_append, List.length_replicate]
    omega
  · rw [hsdata]
    intro x hx
    rcases List.mem_append.mp hx with hx | hx
    · have : x = '0' := List.eq_of_mem_replicate hx
      subst this
      exact ⟨by decide, by decide⟩
    · exact hdig x hx
  · rw [hsdata, digitsVal_replicate_zero, hval]

/-- C4 (counterexample): the claim's unbounded monotonicity fails once a count
exceeds the constant 1000000: counts 10000000 > 2000000 give sort keys
`"-9000000"` and `"-1000000"`, and the first does NOT sort strictly before the
second (lexicographically `"-1000000" < "-9000000"`). -/
theorem c4_sort_key_counterexample :
    (2000000 : Int) < 10000000 ∧ ¬ sortKey 10000000 < sortKey 2000000 := by
  refine ⟨by norm_num, ?_⟩
  rw [String.lt_iff_toList_lt]
  decide

/-- C4 (amended): for two candidates from the same source mapping with counts
`c1 > c2`, both in the range `[1, 999999]` actually attainable before the
padding overflows (every stored count is at least 1, and the bound 999999 is
what keeps `1000000 - count` six digits wide), the sort key of the higher count
is lexicographically strictly smaller, so that candidate sorts strictly
first. -/
theorem c4_sort_key_monotone (c1 c2 : Int) (hlo : 1 ≤ c2) (hlt : c2 < c1)
    (hhi : c1 ≤ 999999) : sortKey c1 < sortKey c2 := by
  obtain ⟨hlen1, hdig1, hval1⟩ := sortKey_data_spec c1 (by omega) hhi
  obtain ⟨hlen2, hdig2, hval2⟩ := sortKey_data_spec c2 hlo (by omega)
  rw [String.lt_iff_toList_lt]
  show List.Lex (fun x1 x2 : Char => x1 < x2) (sortKey c1).data (sortKey c2).data
  exact lex_lt_of_digitsVal_lt _ _ (by omega) hdig1 hdig2 (by omega)

/-- Witness for C4's amended monotonicity at counts 2 > 1. -/
theorem c4_sort_key_monotone_witness : sortKey 2 < sortKey 1 :=
  c4_sort_key_monotone 2 1 (by norm_num) (by norm_num) (by norm_num)

end Pypls
